import Mathlib

/-!
Shallow embedding of the cross-lingual idiom similarity ranking and scoring
engine of the `idiom` repository (files `analyze_improved_similarity.py`,
`analyze_cross_lingual_similarity.py`, `analyze_finnish_japanese_similarity.py`,
`similarity/semantic_matcher.py`).

Real similarity scores are embedded as rationals (ℚ); Python lists as Lean
lists; a Python run that raises an exception is embedded as `Option.none`.
The pretrained sentence encoder and the cosine-similarity matrix construction
are external collaborators: the embedded analysis functions take the two
similarity matrices as function arguments `ℕ → ℕ → ℚ`.
-/

namespace Idiom

/-- An idiom record, mirroring the dictionaries loaded from the embedding
pickles: `{'idiom': ..., 'contexts': [...], 'english_translations': [...]}`. -/
structure IdiomRec where
  idiom : String
  contexts : List String
  english_translations : List String
  deriving Repr, DecidableEq

/-! ### `get_tokens` / `calculate_lexical_overlap`
(`analyze_improved_similarity.py`, lines 22-44) -/

/-- A Python `\w` word character, i.e. the character class matched by
`re.findall(r'\b\w+\b', ...)`: alphanumeric or underscore.  (Python's `\w`
is Unicode-aware; the embedding models the ASCII-alphanumeric core, which
is all the claims depend on.) -/
def isWordChar (c : Char) : Bool := c.isAlphanum || c = '_'

/-- Splits a character list into the maximal runs of word characters,
which is exactly what `re.findall(r'\b\w+\b', text)` returns: the current
(reversed) run is the first argument. -/
def wordRunsAux : List Char → List Char → List String
  | cur, [] => if cur.isEmpty then [] else [String.mk cur.reverse]
  | cur, c :: cs =>
    if isWordChar c then wordRunsAux (c :: cur) cs
    else if cur.isEmpty then wordRunsAux [] cs
    else String.mk cur.reverse :: wordRunsAux [] cs

/-- The token list of a text: maximal word-character runs. -/
def wordRuns (s : List Char) : List String := wordRunsAux [] s

/-- `get_tokens(text)`: lowercase the text, extract `\b\w+\b` matches and
return them as a set (embedded as a `Finset String`). -/
def get_tokens (text : String) : Finset String :=
  (wordRuns (text.data.map Char.toLower)).toFinset

/-- `calculate_lexical_overlap(idiom1, idiom2)`: token-set Jaccard ratio,
with 0.0 when either token set is empty (and the source's redundant
`if total else 0.0` guard kept). -/
def calculate_lexical_overlap (idiom1 idiom2 : String) : ℚ :=
  let tokens1 := get_tokens idiom1
  let tokens2 := get_tokens idiom2
  if tokens1 = ∅ ∨ tokens2 = ∅ then 0
  else
    let shared := tokens1 ∩ tokens2
    let total := tokens1 ∪ tokens2
    if total ≠ ∅ then (shared.card : ℚ) / (total.card : ℚ) else 0

/-! ### `compute_weighted_similarity`
(`analyze_improved_similarity.py`, lines 47-79) -/

/-- `compute_weighted_similarity(idiom_only_sim, context_sim, idiom1, idiom2,
idiom_weight, context_weight, lexical_penalty)`: the weighted base score,
multiplied by `1 - overlap * 0.5` when the penalty is enabled and
`overlap > 0.3 and weighted_score > 0.6`. -/
def compute_weighted_similarity (idiom_only_sim context_sim : ℚ)
    (idiom1 idiom2 : String) (idiom_weight context_weight : ℚ)
    (lexical_penalty : Bool) : ℚ :=
  let weighted_score := idiom_weight * idiom_only_sim + context_weight * context_sim
  if lexical_penalty then
    let overlap := calculate_lexical_overlap idiom1 idiom2
    if overlap > 3/10 ∧ weighted_score > 3/5 then
      weighted_score * (1 - overlap * (1/2))
    else
      weighted_score
  else
    weighted_score

/-! ### Stable descending sort
Python's `sorted(l, key=..., reverse=True)` is a stable sort: elements with
equal keys keep their original relative order, and `reverse=True` does not
disturb that order.  `sortDescBy` is a stable insertion sort with the same
semantics. -/

/-- Insert `m` into `l` after every element whose key is strictly greater. -/
def insertDesc (key : α → ℚ) (m : α) : List α → List α
  | [] => [m]
  | x :: xs => if key m < key x then x :: insertDesc key m xs else m :: x :: xs

/-- Stable descending insertion sort by a rational key; the embedding of
`sorted(l, key=..., reverse=True)`. -/
def sortDescBy (key : α → ℚ) : List α → List α
  | [] => []
  | x :: xs => insertDesc key x (sortDescBy key xs)

/-! ### Mode A: all pairs above threshold
(`analyze_improved_similarity.py`, lines 121-190) -/

/-- The caller-supplied inputs of `analyze_language_pair`: the two idiom
collections, the two precomputed cosine-similarity matrices (external
collaborators, taken as functions of the index pair), and the scoring
configuration. -/
structure AnalysisInput where
  en_idioms : List IdiomRec
  target_idioms : List IdiomRec
  idiom_only_sims : ℕ → ℕ → ℚ
  context_sims : ℕ → ℕ → ℚ
  min_threshold : ℚ
  idiom_weight : ℚ
  context_weight : ℚ

/-- Out-of-range reads never happen in the loops below (all indices are
drawn from `List.range`); `getD` with this dummy keeps the embedding total. -/
def emptyRec : IdiomRec := ⟨"", [], []⟩

def AnalysisInput.enRec (a : AnalysisInput) (i : ℕ) : IdiomRec :=
  a.en_idioms.getD i emptyRec

def AnalysisInput.tgtRec (a : AnalysisInput) (j : ℕ) : IdiomRec :=
  a.target_idioms.getD j emptyRec

/-- The weighted score of the pair `(i, j)`, exactly as computed in both
loops of `analyze_language_pair` (lexical penalty always enabled there). -/
def AnalysisInput.score (a : AnalysisInput) (i j : ℕ) : ℚ :=
  compute_weighted_similarity (a.idiom_only_sims i j) (a.context_sims i j)
    (a.enRec i).idiom (a.tgtRec j).idiom a.idiom_weight a.context_weight true

/-- One Mode A match record, mirroring the dictionary appended to
`all_matches` (language-code-keyed fields renamed `target_*`). -/
structure MatchA where
  english_idiom : String
  english_context : String
  target_idiom : String
  target_context : String
  english_translation : String
  weighted_similarity : ℚ
  idiom_only_similarity : ℚ
  context_similarity : ℚ
  lexical_overlap : ℚ
  deriving Repr, DecidableEq

/-- Builds the Mode A record for the pair `(i, j)`: representative context and
translation are entry 0 when present, `''` otherwise. -/
def mkMatchA (a : AnalysisInput) (i j : ℕ) : MatchA :=
  { english_idiom := (a.enRec i).idiom
    english_context := (a.enRec i).contexts.headD ""
    target_idiom := (a.tgtRec j).idiom
    target_context := (a.tgtRec j).contexts.headD ""
    english_translation := (a.tgtRec j).english_translations.headD ""
    weighted_similarity := a.score i j
    idiom_only_similarity := a.idiom_only_sims i j
    context_similarity := a.context_sims i j
    lexical_overlap := calculate_lexical_overlap (a.enRec i).idiom (a.tgtRec j).idiom }

/-- `all_matches`: the source-major, target-minor double loop keeping exactly
the pairs with `weighted_sim >= min_threshold`. -/
def all_matches (a : AnalysisInput) : List MatchA :=
  (List.range a.en_idioms.length).flatMap fun i =>
    (List.range a.target_idioms.length).filterMap fun j =>
      if a.min_threshold ≤ a.score i j then some (mkMatchA a i j) else none

/-- `all_matches_sorted = sorted(all_matches, key=lambda x: x['weighted_similarity'], reverse=True)`. -/
def all_matches_sorted (a : AnalysisInput) : List MatchA :=
  sortDescBy (fun m => m.weighted_similarity) (all_matches a)

/-- The list persisted to JSON/CSV: `all_matches_sorted[:100]`. -/
def saved_top_matches (a : AnalysisInput) : List MatchA :=
  (all_matches_sorted a).take 100

/-- `weighted_scores = [m['weighted_similarity'] for m in all_matches_sorted]`:
the statistics section consumes the full sorted list, not the truncation. -/
def stats_weighted_scores (a : AnalysisInput) : List ℚ :=
  (all_matches_sorted a).map fun m => m.weighted_similarity

/-! ### Mode B: best English match per target idiom
(`analyze_improved_similarity.py`, lines 197-241) -/

/-- The four loop accumulators of the best-match scan:
`best_score = -1`, `best_en_idx = -1`, `best_idiom_sim = 0`, `best_context_sim = 0`. -/
structure BState where
  best_score : ℚ
  best_en_idx : Int
  best_idiom_sim : ℚ
  best_context_sim : ℚ
  deriving Repr, DecidableEq

/-- The inner `for en_idx in range(len(en_idioms))` loop: update the four
accumulators whenever `weighted_sim > best_score` (strict). -/
def bestFold (f g h : ℕ → ℚ) (n : ℕ) : BState :=
  (List.range n).foldl
    (fun acc i => if acc.best_score < f i then ⟨f i, i, g i, h i⟩ else acc)
    ⟨-1, -1, 0, 0⟩

/-- Python list indexing `l[i]`: negative indices count from the end, and an
index out of range raises `IndexError` (embedded as `none`). -/
def pyGet (l : List α) (i : Int) : Option α :=
  let j := if i < 0 then (l.length : Int) + i else i
  if 0 ≤ j then l[j.toNat]? else none

/-- One Mode B record, mirroring the dictionary appended to
`target_best_matches`. -/
structure MatchB where
  target_idiom : String
  target_context : String
  english_translation : String
  best_english_match : String
  english_context : String
  weighted_similarity : ℚ
  idiom_only_similarity : ℚ
  context_similarity : ℚ
  lexical_overlap : ℚ
  deriving Repr, DecidableEq, Inhabited

/-- The final accumulator state of the best-match scan for target index `t`. -/
def AnalysisInput.bestState (a : AnalysisInput) (t : ℕ) : BState :=
  bestFold (fun i => a.score i t) (fun i => a.idiom_only_sims i t)
    (fun i => a.context_sims i t) a.en_idioms.length

/-- The body of the outer Mode B loop for target index `t`: run the scan,
then read `en_idioms[best_en_idx]` (Python indexing — this is where an empty
source collection raises `IndexError`) and build the record. -/
def modeB_step (a : AnalysisInput) (t : ℕ) : Option MatchB :=
  let st := a.bestState t
  match pyGet a.en_idioms st.best_en_idx with
  | none => none
  | some bestEn => some
    { target_idiom := (a.tgtRec t).idiom
      target_context := (a.tgtRec t).contexts.headD ""
      english_translation := (a.tgtRec t).english_translations.headD ""
      best_english_match := bestEn.idiom
      english_context := bestEn.contexts.headD ""
      weighted_similarity := st.best_score
      idiom_only_similarity := st.best_idiom_sim
      context_similarity := st.best_context_sim
      lexical_overlap := calculate_lexical_overlap bestEn.idiom (a.tgtRec t).idiom }

/-- The outer `for tgt_idx, tgt_idiom_data in enumerate(target_idioms)` loop,
appending one record per target; an exception anywhere aborts the run. -/
def modeB_aux (a : AnalysisInput) : List ℕ → Option (List MatchB)
  | [] => some []
  | t :: ts =>
    match modeB_step a t, modeB_aux a ts with
    | some m, some ms => some (m :: ms)
    | _, _ => none

/-- `target_best_matches`: one best-match record per target idiom, in target
order (no threshold is consulted anywhere in this mode). -/
def target_best_matches (a : AnalysisInput) : Option (List MatchB) :=
  modeB_aux a (List.range a.target_idioms.length)

/-- `target_best_matches_sorted = sorted(..., reverse=True)`, persisted in
full (not truncated). -/
def target_best_matches_sorted (a : AnalysisInput) : Option (List MatchB) :=
  (target_best_matches a).map (sortDescBy fun m => m.weighted_similarity)

/-! ### Statistics reporter (QUALITY METRICS)
(`analyze_improved_similarity.py`, lines 261-300) -/

/-- `np.mean`: sum over length. -/
def np_mean (l : List ℚ) : ℚ := l.sum / l.length

/-- Ascending sort of scores, for the median. -/
def sortAsc (l : List ℚ) : List ℚ := (sortDescBy id l).reverse

/-- `np.median`: middle element of the sorted scores, or the average of the
two middle elements for an even count. -/
def np_median (l : List ℚ) : ℚ :=
  let s := sortAsc l
  let n := s.length
  if n % 2 = 1 then s.getD (n / 2) 0
  else (s.getD (n / 2 - 1) 0 + s.getD (n / 2) 0) / 2

/-- `np.min` raises `ValueError` on an empty array (embedded as `none`). -/
def np_min (l : List ℚ) : Option ℚ := l.min?

/-- `np.max` raises `ValueError` on an empty array (embedded as `none`). -/
def np_max (l : List ℚ) : Option ℚ := l.max?

/-- The threshold-bucket loop
`count = sum(1 for s in scores if s >= thresh); pct = count / len(scores) * 100`:
`count / len(scores)` raises `ZeroDivisionError` when the score list is empty. -/
def distribution_report (scores : List ℚ) (thresholds : List ℚ) :
    Option (List (ℕ × ℚ)) :=
  if scores.length = 0 then none
  else some (thresholds.map fun t =>
    let c := scores.countP fun s => decide (t ≤ s)
    (c, (c : ℚ) / (scores.length : ℚ) * 100))

/-- The figures printed by the `Matches above threshold` section. -/
structure FullBlock where
  count : ℕ
  mean_weighted : ℚ
  median_weighted : ℚ
  mean_idiom : ℚ
  median_idiom : ℚ
  mean_context : ℚ
  median_context : ℚ
  mean_overlap : ℚ
  median_overlap : ℚ
  high_overlap_count : ℕ
  deriving Repr, DecidableEq

/-- The full-distribution statistics: the entire section sits under
`if weighted_scores:`, so an empty list makes it report nothing (`none`
here means "skipped", not an error — nothing in this function can fail). -/
def full_block (matches_sorted : List MatchA) : Option FullBlock :=
  let weighted_scores := matches_sorted.map fun m => m.weighted_similarity
  if weighted_scores = [] then none
  else some
    { count := weighted_scores.length
      mean_weighted := np_mean weighted_scores
      median_weighted := np_median weighted_scores
      mean_idiom := np_mean (matches_sorted.map fun m => m.idiom_only_similarity)
      median_idiom := np_median (matches_sorted.map fun m => m.idiom_only_similarity)
      mean_context := np_mean (matches_sorted.map fun m => m.context_similarity)
      median_context := np_median (matches_sorted.map fun m => m.context_similarity)
      mean_overlap := np_mean (matches_sorted.map fun m => m.lexical_overlap)
      median_overlap := np_median (matches_sorted.map fun m => m.lexical_overlap)
      high_overlap_count :=
        (matches_sorted.filter fun m => decide (2/5 < m.lexical_overlap)).length }

/-- The figures printed by the `Best match per ... idiom` section. -/
structure BestBlock where
  mean : ℚ
  median : ℚ
  min_score : ℚ
  max_score : ℚ
  dist : List (ℕ × ℚ)
  deriving Repr, DecidableEq

/-- The best-match statistics: `np.mean`/`np.median` of an empty array give
NaN without raising, but `np.min`/`np.max` raise `ValueError` and the
distribution loop divides by `len(best_weighted)` — this section has no
empty-list guard, so an empty score list aborts the run (`none`). -/
def best_block (best_weighted : List ℚ) : Option BestBlock :=
  match np_min best_weighted, np_max best_weighted,
      distribution_report best_weighted [1/2, 3/5, 7/10, 4/5, 9/10] with
  | some mn, some mx, some d =>
    some ⟨np_mean best_weighted, np_median best_weighted, mn, mx, d⟩
  | _, _, _ => none

/-- The whole QUALITY METRICS section: the guarded full-distribution block,
then the unguarded best-match block. -/
def quality_metrics (matches_sorted : List MatchA) (best_sorted : List MatchB) :
    Option (Option FullBlock × BestBlock) :=
  match best_block (best_sorted.map fun m => m.weighted_similarity) with
  | some b => some (full_block matches_sorted, b)
  | none => none

/-! ### `SemanticMatcher.find_similar_mwes`
(`similarity/semantic_matcher.py`, lines 92-146) -/

/-- Python `dict` assignment `d[k] = v`: replace in place if the key exists,
append otherwise (insertion order preserved). -/
def dictInsert (k : String) (v : List (String × ℚ)) :
    List (String × List (String × ℚ)) → List (String × List (String × ℚ))
  | [] => [(k, v)]
  | p :: rest =>
    if p.1 = k then (p.1, v) :: rest else p :: dictInsert k v rest

/-- `np.argsort(similarities)[::-1][:top_k]`: the first `top_k` column indices
in descending similarity order.  NumPy's default argsort leaves the order of
equal values unspecified; the embedding fixes the stable choice (ties in
ascending index order), on which none of the proved properties depend. -/
def top_indices (row : ℕ → ℚ) (n top_k : ℕ) : List ℕ :=
  (sortDescBy (fun i => row i) (List.range n)).take top_k

/-- The inner filtering loop: keep `(foreign_mwes[idx], similarities[idx])`
for the top indices whose similarity is `>= threshold`. -/
def matched_mwes (foreign_mwes : List String) (row : ℕ → ℚ)
    (threshold : ℚ) (top_k : ℕ) : List (String × ℚ) :=
  (top_indices row foreign_mwes.length top_k).filterMap fun idx =>
    if threshold ≤ row idx then some (foreign_mwes.getD idx "", row idx) else none

/-- `find_similar_mwes(english_idioms, foreign_mwes, threshold, top_k)` after
encoding: the encoder is an external collaborator, so the similarity matrix is
taken as an argument.  `isinstance(english_idioms[0], dict)` raises
`IndexError` on an empty input list (`none`); otherwise each idiom is mapped
to its matched list, with idioms whose matched list is empty left out of the
dictionary (`if matched_mwes: matches[idiom] = matched_mwes`). -/
def find_similar_mwes (idiom_texts foreign_mwes : List String)
    (similarity_matrix : ℕ → ℕ → ℚ) (threshold : ℚ) (top_k : ℕ) :
    Option (List (String × List (String × ℚ))) :=
  if idiom_texts.isEmpty then none
  else some <|
    idiom_texts.enum.foldl
      (fun acc p =>
        let m := matched_mwes foreign_mwes (fun j => similarity_matrix p.1 j)
          threshold top_k
        if m.isEmpty then acc else dictInsert p.2 m acc)
      []

/-! ### Concrete analysis inputs used to instantiate the claims -/

/-- One English and one French idiom with high similarity and no lexical
overlap: the pair scores `0.6*0.9 + 0.4*0.7 = 0.82` with no penalty. -/
def aWit : AnalysisInput :=
  { en_idioms := [⟨"spill the beans", ["he spilled the beans"], []⟩]
    target_idioms := [⟨"vendre la meche", [], ["to sell the wick"]⟩]
    idiom_only_sims := fun _ _ => 9/10
    context_sims := fun _ _ => 7/10
    min_threshold := 13/20
    idiom_weight := 3/5
    context_weight := 2/5 }

/-- Two source idioms whose similarities to the single target are all exactly
-1 (the extreme of the cosine range): every weighted score equals the loop's
sentinel `best_score = -1`, so the strict `>` update never fires. -/
def aTie : AnalysisInput :=
  { en_idioms := [⟨"e0", [], []⟩, ⟨"e1", [], []⟩]
    target_idioms := [⟨"t", [], []⟩]
    idiom_only_sims := fun _ _ => -1
    context_sims := fun _ _ => -1
    min_threshold := 13/20
    idiom_weight := 3/5
    context_weight := 2/5 }

/-- An empty source collection against one target idiom. -/
def aEmptySrc : AnalysisInput :=
  { en_idioms := []
    target_idioms := [⟨"t", [], []⟩]
    idiom_only_sims := fun _ _ => 1
    context_sims := fun _ _ => 1
    min_threshold := 13/20
    idiom_weight := 3/5
    context_weight := 2/5 }

/-- One source idiom against an empty target collection. -/
def aEmptyTgt : AnalysisInput :=
  { en_idioms := [⟨"e0", [], []⟩]
    target_idioms := []
    idiom_only_sims := fun _ _ => 1
    context_sims := fun _ _ => 1
    min_threshold := 13/20
    idiom_weight := 3/5
    context_weight := 2/5 }

end Idiom

/-! ## Helper lemmas about the stable descending sort -/

namespace Idiom

theorem insertDesc_perm (key : α → ℚ) (m : α) (l : List α) :
    (insertDesc key m l).Perm (m :: l) := by
  induction l with
  | nil => simp [insertDesc]
  | cons x xs ih =>
    simp only [insertDesc]
    split
    · exact (ih.cons x).trans (List.Perm.swap m x xs)
    · exact List.Perm.refl _

theorem sortDescBy_perm (key : α → ℚ) (l : List α) :
    (sortDescBy key l).Perm l := by
  induction l with
  | nil => exact List.Perm.refl _
  | cons x xs ih =>
    exact (insertDesc_perm key x (sortDescBy key xs)).trans (ih.cons x)

theorem insertDesc_pairwise (key : α → ℚ) (m : α) (l : List α)
    (hl : l.Pairwise fun a b => key b ≤ key a) :
    (insertDesc key m l).Pairwise fun a b => key b ≤ key a := by
  induction l with
  | nil => simp [insertDesc]
  | cons x xs ih =>
    rw [List.pairwise_cons] at hl
    obtain ⟨hx, hxs⟩ := hl
    simp only [insertDesc]
    split
    · rename_i hlt
      rw [List.pairwise_cons]
      refine ⟨fun y hy => ?_, ih hxs⟩
      rcases List.mem_cons.mp ((insertDesc_perm key m xs).mem_iff.mp hy) with h | h
      · subst h; exact le_of_lt hlt
      · exact hx y h
    · rename_i hge
      push_neg at hge
      rw [List.pairwise_cons]
      refine ⟨fun y hy => ?_, List.pairwise_cons.mpr ⟨hx, hxs⟩⟩
      rcases List.mem_cons.mp hy with h | h
      · subst h; exact hge
      · exact le_trans (hx y h) hge

theorem sortDescBy_pairwise (key : α → ℚ) (l : List α) :
    (sortDescBy key l).Pairwise fun a b => key b ≤ key a := by
  induction l with
  | nil => simp [sortDescBy]
  | cons x xs ih => exact insertDesc_pairwise key x (sortDescBy key xs) ih

theorem insertDesc_filter (key : α → ℚ) (m : α) (l : List α) (v : ℚ) :
    (insertDesc key m l).filter (fun x => decide (key x = v))
      = if key m = v then m :: l.filter (fun x => decide (key x = v))
        else l.filter (fun x => decide (key x = v)) := by
  induction l with
  | nil => by_cases h : key m = v <;> simp [insertDesc, List.filter, h]
  | cons x xs ih =>
    simp only [insertDesc]
    split
    · rename_i hlt
      by_cases hmv : key m = v
      · have hxv : key x ≠ v := ne_of_gt (hmv ▸ hlt)
        simp [List.filter_cons, hmv, hxv, ih]
      · simp [List.filter_cons, hmv, ih]
    · by_cases hmv : key m = v <;> simp [List.filter_cons, hmv]

theorem sortDescBy_filter (key : α → ℚ) (l : List α) (v : ℚ) :
    (sortDescBy key l).filter (fun x => decide (key x = v))
      = l.filter (fun x => decide (key x = v)) := by
  induction l with
  | nil => rfl
  | cons x xs ih =>
    simp only [sortDescBy]
    rw [insertDesc_filter, ih]
    by_cases hmv : key x = v <;> simp [List.filter_cons, hmv]

/-- The branch structure of `calculate_lexical_overlap`: the trailing
`if total else 0.0` guard never fires, because two non-empty token sets have
a non-empty union. -/
theorem overlap_eq (s1 s2 : String) :
    calculate_lexical_overlap s1 s2 =
      if get_tokens s1 = ∅ ∨ get_tokens s2 = ∅ then 0
      else ((get_tokens s1 ∩ get_tokens s2).card : ℚ)
        / ((get_tokens s1 ∪ get_tokens s2).card : ℚ) := by
  show (if get_tokens s1 = ∅ ∨ get_tokens s2 = ∅ then 0
    else if get_tokens s1 ∪ get_tokens s2 ≠ ∅
      then ((get_tokens s1 ∩ get_tokens s2).card : ℚ)
        / ((get_tokens s1 ∪ get_tokens s2).card : ℚ)
      else 0) = _
  by_cases h : get_tokens s1 = ∅ ∨ get_tokens s2 = ∅
  · simp [h]
  · push_neg at h
    have hu : get_tokens s1 ∪ get_tokens s2 ≠ ∅ := by
      simp [Finset.union_eq_empty, h.1]
    simp [h.1, h.2, hu]

/-! ### Helper lemmas about the Mode B best-match scan -/

/-- The best-match loop either never updates (all scores at or below the
sentinel `-1`) or ends at the first-seen maximal index. -/
theorem bestFold_spec (f g h : ℕ → ℚ) (n : ℕ) :
    (bestFold f g h n = ⟨-1, -1, 0, 0⟩ ∧ ∀ j, j < n → f j ≤ -1)
    ∨ ∃ i, i < n ∧ bestFold f g h n = ⟨f i, (i : Int), g i, h i⟩
        ∧ (∀ j, j < n → f j ≤ f i) ∧ (∀ j, j < i → f j < f i) := by
  induction n with
  | zero => exact Or.inl ⟨rfl, fun j hj => absurd hj (Nat.not_lt_zero j)⟩
  | succ n ih =>
    have hstep : bestFold f g h (n + 1)
        = (if (bestFold f g h n).best_score < f n then ⟨f n, (n : Int), g n, h n⟩
           else bestFold f g h n) := by
      simp [bestFold, List.range_succ, List.foldl_append]
    rcases ih with ⟨heq, hall⟩ | ⟨i, hin, heq, hmax, hfirst⟩
    · by_cases hn : (-1 : ℚ) < f n
      · refine Or.inr ⟨n, Nat.lt_succ_self n, ?_, ?_, ?_⟩
        · rw [hstep, heq, if_pos hn]
        · intro j hj
          rcases Nat.lt_succ_iff_lt_or_eq.mp hj with hj | hj
          · exact le_trans (hall j hj) (le_of_lt hn)
          · subst hj; exact le_refl _
        · intro j hj; exact lt_of_le_of_lt (hall j hj) hn
      · refine Or.inl ⟨by rw [hstep, heq, if_neg hn], ?_⟩
        intro j hj
        rcases Nat.lt_succ_iff_lt_or_eq.mp hj with hj | hj
        · exact hall j hj
        · subst hj; exact not_lt.mp hn
    · by_cases hn : f i < f n
      · refine Or.inr ⟨n, Nat.lt_succ_self n, ?_, ?_, ?_⟩
        · rw [hstep, heq, if_pos hn]
        · intro j hj
          rcases Nat.lt_succ_iff_lt_or_eq.mp hj with hj | hj
          · exact le_trans (hmax j hj) (le_of_lt hn)
          · subst hj; exact le_refl _
        · intro j hj; exact lt_of_le_of_lt (hmax j hj) hn
      · refine Or.inr ⟨i, Nat.lt_succ_of_lt hin, ?_, ?_, hfirst⟩
        · rw [hstep, heq, if_neg hn]
        · intro j hj
          rcases Nat.lt_succ_iff_lt_or_eq.mp hj with hj | hj
          · exact hmax j hj
          · subst hj; exact not_lt.mp hn

/-- Python indexing at a non-negative index is plain list indexing. -/
theorem pyGet_ofNat (l : List α) (i : ℕ) : pyGet l (i : Int) = l[i]? := by
  simp only [pyGet]
  rw [if_neg (by omega : ¬ ((i : Int) < 0)), if_pos (by omega : (0 : Int) ≤ (i : Int)),
    Int.toNat_natCast]

/-- Python indexing at `-1` is the last element of a non-empty list. -/
theorem pyGet_neg_one (l : List α) (hl : l ≠ []) :
    pyGet l (-1) = l[l.length - 1]? := by
  have hpos : 0 < l.length := List.length_pos.mpr hl
  simp only [pyGet]
  rw [if_pos (by norm_num : (-1 : Int) < 0),
    if_pos (by omega : (0 : Int) ≤ (l.length : Int) + -1)]
  congr 1
  omega

/-- With a non-empty source collection, every Mode B step succeeds; and if
some source scores above the `-1` sentinel, the produced record belongs to
the first-seen maximal-score source idiom. -/
theorem modeB_step_spec (a : AnalysisInput) (t : ℕ) (hsrc : a.en_idioms ≠ []) :
    ∃ m, modeB_step a t = some m
      ∧ m.target_idiom = (a.tgtRec t).idiom
      ∧ ((∃ i0, i0 < a.en_idioms.length ∧ -1 < a.score i0 t) →
          ∃ i, i < a.en_idioms.length
            ∧ m.best_english_match = (a.enRec i).idiom
            ∧ m.weighted_similarity = a.score i t
            ∧ (∀ j, j < a.en_idioms.length → a.score j t ≤ a.score i t)
            ∧ (∀ j, j < i → a.score j t < a.score i t)) := by
  rcases bestFold_spec (fun i => a.score i t) (fun i => a.idiom_only_sims i t)
      (fun i => a.context_sims i t) a.en_idioms.length with
    ⟨heq, hall⟩ | ⟨i, hin, heq, hmax, hfirst⟩
  · have hb : a.bestState t = ⟨-1, -1, 0, 0⟩ := heq
    have hlast : ∃ x, a.en_idioms[a.en_idioms.length - 1]? = some x := by
      have hpos : 0 < a.en_idioms.length := List.length_pos.mpr hsrc
      exact ⟨_, List.getElem?_eq_getElem (by omega)⟩
    obtain ⟨x, hx⟩ := hlast
    have hpy : pyGet a.en_idioms (a.bestState t).best_en_idx = some x := by
      rw [hb]
      exact (pyGet_neg_one a.en_idioms hsrc).trans hx
    have hsome : modeB_step a t = some
        { target_idiom := (a.tgtRec t).idiom
          target_context := (a.tgtRec t).contexts.headD ""
          english_translation := (a.tgtRec t).english_translations.headD ""
          best_english_match := x.idiom
          english_context := x.contexts.headD ""
          weighted_similarity := (a.bestState t).best_score
          idiom_only_similarity := (a.bestState t).best_idiom_sim
          context_similarity := (a.bestState t).best_context_sim
          lexical_overlap := calculate_lexical_overlap x.idiom (a.tgtRec t).idiom } := by
      simp only [modeB_step, hpy]
    refine ⟨_, hsome, rfl, ?_⟩
    rintro ⟨i0, hi0, hgt⟩
    exact absurd (hall i0 hi0) (not_le.mpr hgt)
  · have hb : a.bestState t
        = ⟨a.score i t, (i : Int), a.idiom_only_sims i t, a.context_sims i t⟩ := heq
    have hget : a.en_idioms[i]? = some (a.en_idioms.getD i emptyRec) := by
      rw [List.getD_eq_getElem a.en_idioms emptyRec hin]
      exact List.getElem?_eq_getElem hin
    have hpy : pyGet a.en_idioms (a.bestState t).best_en_idx
        = some (a.en_idioms.getD i emptyRec) := by
      rw [hb]
      exact (pyGet_ofNat a.en_idioms i).trans hget
    have hsome : modeB_step a t = some
        { target_idiom := (a.tgtRec t).idiom
          target_context := (a.tgtRec t).contexts.headD ""
          english_translation := (a.tgtRec t).english_translations.headD ""
          best_english_match := (a.en_idioms.getD i emptyRec).idiom
          english_context := (a.en_idioms.getD i emptyRec).contexts.headD ""
          weighted_similarity := (a.bestState t).best_score
          idiom_only_similarity := (a.bestState t).best_idiom_sim
          context_similarity := (a.bestState t).best_context_sim
          lexical_overlap := calculate_lexical_overlap
            (a.en_idioms.getD i emptyRec).idiom (a.tgtRec t).idiom } := by
      simp only [modeB_step, hpy]
    refine ⟨_, hsome, rfl, fun _ => ⟨i, hin, rfl, ?_, hmax, hfirst⟩⟩
    show (a.bestState t).best_score = a.score i t
    rw [hb]

/-- Threading `modeB_step` through the Mode B loop: if every step succeeds,
the loop returns the pointwise list of step results. -/
theorem modeB_aux_forall (a : AnalysisInput) (ts : List ℕ)
    (h : ∀ t ∈ ts, ∃ m, modeB_step a t = some m) :
    ∃ l, modeB_aux a ts = some l
      ∧ List.Forall₂ (fun t m => modeB_step a t = some m) ts l := by
  induction ts with
  | nil => exact ⟨[], rfl, List.Forall₂.nil⟩
  | cons t ts ih =>
    obtain ⟨m, hm⟩ := h t (List.mem_cons_self t ts)
    obtain ⟨l, hl, hf⟩ := ih fun x hx => h x (List.mem_cons_of_mem t hx)
    exact ⟨m :: l, by simp [modeB_aux, hm, hl], List.Forall₂.cons hm hf⟩

/-- Pointwise reading of `Forall₂` through `getD`. -/
theorem forall2_getD {R : α → β → Prop} {l1 : List α} {l2 : List β}
    (h : List.Forall₂ R l1 l2) :
    ∀ k, k < l1.length → ∀ d1 d2, R (l1.getD k d1) (l2.getD k d2) := by
  induction h with
  | nil => intro k hk; exact absurd hk (by simp)
  | cons hr hrest ih =>
    intro k hk d1 d2
    cases k with
    | zero => simpa using hr
    | succ k =>
      simp only [List.getD_cons_succ]
      exact ih k (by simpa using hk) d1 d2

/-- With an empty source collection the scan never updates, `best_en_idx`
stays `-1`, and `en_idioms[-1]` on the empty list fails. -/
theorem modeB_step_none_of_empty_src (a : AnalysisInput)
    (hsrc : a.en_idioms = []) (t : ℕ) : modeB_step a t = none := by
  have hb : a.bestState t = ⟨-1, -1, 0, 0⟩ := by
    unfold AnalysisInput.bestState bestFold
    rw [hsrc]
    rfl
  have hpy : pyGet a.en_idioms (a.bestState t).best_en_idx = none := by
    rw [hb, hsrc]
    rfl
  simp only [modeB_step, hpy]

/-! ### Helper lemmas about `find_similar_mwes` -/

/-- Entries of a `dict` after an assignment: the assigned pair or an old one. -/
theorem dictInsert_mem {k : String} {v : List (String × ℚ)}
    {d : List (String × List (String × ℚ))} {e} (he : e ∈ dictInsert k v d) :
    e = (k, v) ∨ e ∈ d := by
  induction d with
  | nil => simpa [dictInsert] using he
  | cons x xs ih =>
    simp only [dictInsert] at he
    split at he
    · rename_i hk
      rcases List.mem_cons.mp he with h | h
      · exact Or.inl (by rw [h, hk])
      · exact Or.inr (List.mem_cons_of_mem x h)
    · rcases List.mem_cons.mp he with h | h
      · exact Or.inr (h ▸ List.mem_cons_self x xs)
      · rcases ih h with h2 | h2
        · exact Or.inl h2
        · exact Or.inr (List.mem_cons_of_mem x h2)

/-- The second components of an enumerated list are its elements. -/
theorem enumFrom_snd_mem : ∀ (l : List α) (n : ℕ) (p : ℕ × α),
    p ∈ l.enumFrom n → p.2 ∈ l := by
  intro l
  induction l with
  | nil => intro n p h; cases h
  | cons x xs ih =>
    intro n p h
    rcases List.mem_cons.mp h with h | h
    · rw [h]; exact List.mem_cons_self x xs
    · exact List.mem_cons_of_mem x (ih (n + 1) p h)

/-- Filtering the descending-ordered index list keeps the produced pairs in
weakly descending score order. -/
theorem filterMap_pairwise_desc (mwes : List String) (row : ℕ → ℚ) (θ : ℚ)
    (l : List ℕ) (hl : l.Pairwise fun x y => row y ≤ row x) :
    (l.filterMap fun idx =>
      if θ ≤ row idx then some (mwes.getD idx "", row idx) else none).Pairwise
      fun p q => q.2 ≤ p.2 := by
  induction l with
  | nil => simp
  | cons x xs ih =>
    rw [List.pairwise_cons] at hl
    obtain ⟨hx, hxs⟩ := hl
    by_cases hθ : θ ≤ row x
    · simp only [List.filterMap_cons, if_pos hθ]
      rw [List.pairwise_cons]
      refine ⟨?_, ih hxs⟩
      intro q hq
      obtain ⟨j, hj, hqj⟩ := List.mem_filterMap.mp hq
      split at hqj
      · cases hqj
        exact hx j hj
      · exact absurd hqj (by simp)
    · simp only [List.filterMap_cons, if_neg hθ]
      exact ih hxs

/-- The per-idiom matched list: at most `top_k` entries, all scoring at or
above the threshold, in weakly descending score order. -/
theorem matched_mwes_spec (mwes : List String) (row : ℕ → ℚ) (θ : ℚ) (k : ℕ) :
    (matched_mwes mwes row θ k).length ≤ k
    ∧ (∀ p ∈ matched_mwes mwes row θ k, θ ≤ p.2)
    ∧ (matched_mwes mwes row θ k).Pairwise fun p q => q.2 ≤ p.2 := by
  refine ⟨?_, ?_, ?_⟩
  · calc (matched_mwes mwes row θ k).length
        ≤ (top_indices row mwes.length k).length := List.length_filterMap_le _ _
      _ ≤ k := by rw [top_indices, List.length_take]; exact min_le_left _ _
  · intro p hp
    obtain ⟨j, hj, hpj⟩ := List.mem_filterMap.mp hp
    split at hpj
    · rename_i hθ
      cases hpj
      exact hθ
    · exact absurd hpj (by simp)
  · refine filterMap_pairwise_desc mwes row θ _ ?_
    have hs := sortDescBy_pairwise (fun i => row i) (List.range mwes.length)
    exact hs.sublist (List.take_sublist _ _)

/-- Invariant threading through the `find_similar_mwes` accumulation loop. -/
theorem fold_dictInsert_inv {P : String × List (String × ℚ) → Prop}
    (F : ℕ × String → List (String × ℚ)) :
    ∀ (ts : List (ℕ × String)) (acc : List (String × List (String × ℚ))),
      (∀ p ∈ ts, (F p).isEmpty = false → P (p.2, F p)) →
      (∀ e ∈ acc, P e) →
      ∀ e ∈ ts.foldl
        (fun acc p => if (F p).isEmpty then acc else dictInsert p.2 (F p) acc)
        acc, P e := by
  intro ts
  induction ts with
  | nil => intro acc _ hacc e he; exact hacc e he
  | cons p ts ih =>
    intro acc hts hacc e he
    simp only [List.foldl_cons] at he
    by_cases hm : (F p).isEmpty
    · rw [if_pos hm] at he
      exact ih acc (fun q hq => hts q (List.mem_cons_of_mem p hq)) hacc e he
    · rw [if_neg hm] at he
      refine ih _ (fun q hq => hts q (List.mem_cons_of_mem p hq)) ?_ e he
      intro x hx
      rcases dictInsert_mem hx with h | h
      · rw [h]
        exact hts p (List.mem_cons_self p ts) (Bool.eq_false_iff.mpr hm)
      · exact hacc x h

/-- With an empty source and at least one target, Mode B aborts with an
`IndexError` before producing any record. -/
theorem modeB_none_of_empty_src (a : AnalysisInput)
    (hsrc : a.en_idioms = []) (htgt : a.target_idioms ≠ []) :
    target_best_matches a = none := by
  unfold target_best_matches
  cases hr : List.range a.target_idioms.length with
  | nil =>
    exact absurd (List.length_eq_zero.mp (List.range_eq_nil.mp hr))
      htgt
  | cons t0 ts =>
    simp [modeB_aux, modeB_step_none_of_empty_src a hsrc t0]

end Idiom

/-! ## Claim theorems -/

namespace Idiom

/-- **C1.** The weighted scorer computes `base = idiom_weight * idiom_sim +
context_weight * context_sim` and, with the lexical penalty enabled,
multiplies it by `1 - overlap * 0.5` exactly when `overlap > 0.3` and
`base > 0.6`, both strict, returning the (possibly penalized) base and
nothing else; at overlap 0.31 the multiplier is exactly 0.845, and overlap
exactly 0.3 (`"a b c d e f g"` vs `"a b c x y z"`: 3 shared of 10 unique
tokens) triggers no penalty even with a high base. -/
theorem compute_weighted_similarity_spec :
    (∀ i c w1 w2 : ℚ, ∀ s1 s2 : String,
      compute_weighted_similarity i c s1 s2 w1 w2 true =
        if 3/10 < calculate_lexical_overlap s1 s2 ∧ 3/5 < w1 * i + w2 * c
        then (w1 * i + w2 * c) * (1 - calculate_lexical_overlap s1 s2 * (1/2))
        else w1 * i + w2 * c)
    ∧ (∀ i c w1 w2 : ℚ, ∀ s1 s2 : String,
        compute_weighted_similarity i c s1 s2 w1 w2 false = w1 * i + w2 * c)
    ∧ ((1 : ℚ) - 31/100 * (1/2) = 845/1000)
    ∧ calculate_lexical_overlap "a b c d e f g" "a b c x y z" = 3/10
    ∧ compute_weighted_similarity (7/10) (7/10) "a b c d e f g" "a b c x y z"
        (3/5) (2/5) true = 7/10 := by
  refine ⟨fun i c w1 w2 s1 s2 => rfl, fun i c w1 w2 s1 s2 => rfl, by norm_num,
    by with_unfolding_all decide, by with_unfolding_all decide⟩

/-- **C6.** The lexical overlap lowercases both strings, tokenizes them into
word-boundary word-character runs (punctuation discarded), returns 0.0 when
either token set is empty and the token-set Jaccard index `|∩| / |∪|`
otherwise (the source's trailing `if total` guard can never fire). -/
theorem calculate_lexical_overlap_spec :
    (∀ s1 s2 : String,
      calculate_lexical_overlap s1 s2 =
        if get_tokens s1 = ∅ ∨ get_tokens s2 = ∅ then 0
        else ((get_tokens s1 ∩ get_tokens s2).card : ℚ)
          / ((get_tokens s1 ∪ get_tokens s2).card : ℚ))
    ∧ (∀ s : String, get_tokens s = (wordRuns (s.data.map Char.toLower)).toFinset)
    ∧ get_tokens "Spill—the BEANS!!" = {"spill", "the", "beans"}
    ∧ calculate_lexical_overlap "Kick the bucket!" "kick the can" = 1/2 := by
  exact ⟨overlap_eq, fun s => rfl, by decide, by with_unfolding_all decide⟩

/-- **C7 counterexample.** `overlap(A, A) = 1.0` fails for the non-empty
string `"!"`: it tokenizes to the empty set, so the self-overlap is 0.0. -/
theorem overlap_self_bang :
    ("!" : String) ≠ "" ∧ calculate_lexical_overlap "!" "!" = 0
    ∧ calculate_lexical_overlap "!" "!" ≠ 1 := by
  refine ⟨by decide, by decide, by with_unfolding_all decide⟩

/-- **C7 (amended).** Lexical overlap is symmetric, lies in `[0, 1]`,
equals 1.0 on `overlap(A, A)` for every `A` with a *non-empty token set*
(not merely a non-empty string), and equals 0.0 whenever either argument
tokenizes to the empty set. -/
theorem lexical_overlap_props :
    (∀ A B : String, calculate_lexical_overlap A B = calculate_lexical_overlap B A)
    ∧ (∀ A B : String,
        0 ≤ calculate_lexical_overlap A B ∧ calculate_lexical_overlap A B ≤ 1)
    ∧ (∀ A : String, get_tokens A ≠ ∅ → calculate_lexical_overlap A A = 1)
    ∧ (∀ A B : String, get_tokens A = ∅ ∨ get_tokens B = ∅ →
        calculate_lexical_overlap A B = 0) := by
  refine ⟨fun A B => ?_, fun A B => ?_, fun A h => ?_, fun A B h => ?_⟩
  · rw [overlap_eq, overlap_eq]
    by_cases h1 : get_tokens A = ∅ <;> by_cases h2 : get_tokens B = ∅ <;>
      simp [h1, h2, Finset.inter_comm, Finset.union_comm]
  · rw [overlap_eq]
    split
    · exact ⟨le_refl 0, by norm_num⟩
    · constructor
      · exact div_nonneg (Nat.cast_nonneg _) (Nat.cast_nonneg _)
      · refine div_le_one_of_le₀ ?_ (Nat.cast_nonneg _)
        exact_mod_cast Finset.card_le_card
          ((Finset.inter_subset_left).trans Finset.subset_union_left)
  · rw [overlap_eq]
    simp only [h, or_self, if_false, Finset.inter_self, Finset.union_self]
    exact div_self (Nat.cast_ne_zero.mpr
      (Finset.card_ne_zero.mpr (Finset.nonempty_iff_ne_empty.mpr h)))
  · rw [overlap_eq, if_pos h]

/-- **C7 witness.** The amended properties at concrete inputs: a phrase with
a non-empty token set has self-overlap 1, and a punctuation-only string
forces overlap 0. -/
theorem lexical_overlap_props_witness :
    calculate_lexical_overlap "spill the beans" "spill the beans" = 1
    ∧ calculate_lexical_overlap "!!" "beans" = 0 :=
  ⟨lexical_overlap_props.2.2.1 "spill the beans" (by decide),
   lexical_overlap_props.2.2.2 "!!" "beans" (Or.inl (by decide))⟩

/-- **C8.** With the lexical penalty disabled (the pre-penalty base score),
a positive idiom weight makes the score monotone in `idiom_sim` for fixed
`context_sim` and fixed texts. -/
theorem base_score_monotone (i j c : ℚ) (s1 s2 : String) (w1 w2 : ℚ)
    (hw : 0 < w1) (hij : i ≤ j) :
    compute_weighted_similarity i c s1 s2 w1 w2 false
      ≤ compute_weighted_similarity j c s1 s2 w1 w2 false := by
  show w1 * i + w2 * c ≤ w1 * j + w2 * c
  have := mul_le_mul_of_nonneg_left hij (le_of_lt hw)
  linarith

/-- **C8 witness.** Monotonicity instantiated at concrete scores and the
default weights. -/
theorem base_score_monotone_witness :
    compute_weighted_similarity (1/2) (1/2) "a" "b" (3/5) (2/5) false
      ≤ compute_weighted_similarity (3/4) (1/2) "a" "b" (3/5) (2/5) false :=
  base_score_monotone (1/2) (3/4) (1/2) "a" "b" (3/5) (2/5) (by norm_num)
    (by norm_num)

/-- **C2.** Mode A keeps exactly the pairs whose weighted score is `>=` the
threshold (inclusive, in both directions), sorts them descending by weighted
score with ties kept in first-seen enumeration order (source-major, then
target; expressed as: the sorted list is a permutation of the enumeration
order list, is weakly descending, and preserves the relative order of the
records of any fixed score), persists only the first 100 of the sorted list,
and feeds the full sorted list to the statistics. -/
theorem modeA_spec (a : AnalysisInput) :
    (∀ m ∈ all_matches a, a.min_threshold ≤ m.weighted_similarity)
    ∧ (∀ i j : ℕ, i < a.en_idioms.length → j < a.target_idioms.length →
        a.min_threshold ≤ a.score i j → mkMatchA a i j ∈ all_matches a)
    ∧ (all_matches_sorted a).Perm (all_matches a)
    ∧ (all_matches_sorted a).Pairwise
        (fun x y => y.weighted_similarity ≤ x.weighted_similarity)
    ∧ (∀ v : ℚ,
        (all_matches_sorted a).filter (fun m => decide (m.weighted_similarity = v))
          = (all_matches a).filter (fun m => decide (m.weighted_similarity = v)))
    ∧ saved_top_matches a = (all_matches_sorted a).take 100
    ∧ stats_weighted_scores a
        = (all_matches_sorted a).map (fun m => m.weighted_similarity) := by
  refine ⟨?_, ?_, sortDescBy_perm _ _, sortDescBy_pairwise _ _,
    sortDescBy_filter _ _, rfl, rfl⟩
  · intro m hm
    obtain ⟨i, hi, hm⟩ := List.mem_flatMap.mp hm
    obtain ⟨j, hj, hm⟩ := List.mem_filterMap.mp hm
    split at hm
    · rename_i hs
      cases hm
      exact hs
    · exact absurd hm (by simp)
  · intro i j hi hj hs
    exact List.mem_flatMap.mpr ⟨i, List.mem_range.mpr hi,
      List.mem_filterMap.mpr ⟨j, List.mem_range.mpr hj, by rw [if_pos hs]⟩⟩

/-- **C2 witness.** The inclusive-threshold retention direction at a concrete
input: the single cross pair of `aWit` scores 0.82 ≥ 0.65 and is retained. -/
theorem modeA_spec_witness : mkMatchA aWit 0 0 ∈ all_matches aWit :=
  (modeA_spec aWit).2.1 0 0 (by decide) (by decide) (by with_unfolding_all decide)

/-- **C3 counterexample.** In `aTie` both source idioms score exactly -1 (an
exact tie), yet the produced best match is `"e1"` — the *last* source idiom,
selected through `en_idioms[-1]` because the sentinel `best_en_idx = -1` was
never replaced (`-1 > -1` is false) — not the first-seen `"e0"`. -/
theorem modeB_tie_counterexample :
    (target_best_matches aTie).map (List.map fun m => m.best_english_match)
      = some ["e1"]
    ∧ aTie.score 0 0 = aTie.score 1 0
    ∧ (aTie.en_idioms.getD 0 emptyRec).idiom = "e0" := by
  refine ⟨by with_unfolding_all decide, by with_unfolding_all decide, by decide⟩

/-- **C3 (amended).** For every non-empty source collection Mode B returns
exactly one record per target idiom with no threshold filtering; whenever at
least one source scores strictly above the loop sentinel `-1` for a target,
the record carries the first-seen (lowest-index) source idiom among the
maximal-score ones.  (In the degenerate case in which every weighted score
equals the sentinel exactly, the loop never updates and `en_idioms[-1]`
selects the last source idiom instead.) -/
theorem modeB_spec (a : AnalysisInput) (hsrc : a.en_idioms ≠ []) :
    ∃ l, target_best_matches a = some l
      ∧ l.length = a.target_idioms.length
      ∧ ∀ t, t < a.target_idioms.length →
          ((l.getD t default).target_idiom = (a.tgtRec t).idiom
          ∧ ((∃ i0, i0 < a.en_idioms.length ∧ -1 < a.score i0 t) →
              ∃ i, i < a.en_idioms.length
                ∧ (l.getD t default).best_english_match = (a.enRec i).idiom
                ∧ (l.getD t default).weighted_similarity = a.score i t
                ∧ (∀ j, j < a.en_idioms.length → a.score j t ≤ a.score i t)
                ∧ (∀ j, j < i → a.score j t < a.score i t))) := by
  obtain ⟨l, hl, hf⟩ := modeB_aux_forall a (List.range a.target_idioms.length)
    fun t _ => (modeB_step_spec a t hsrc).imp fun m hm => hm.1
  refine ⟨l, hl, ?_, ?_⟩
  · rw [← hf.length_eq, List.length_range]
  · intro t ht
    have hget : (List.range a.target_idioms.length).getD t 0 = t := by
      rw [List.getD_eq_getElem _ _ (by simpa using ht)]
      exact List.getElem_range t (by simpa using ht)
    have hstep : modeB_step a t = some (l.getD t default) := by
      have := forall2_getD hf t (by simpa using ht) 0 default
      rwa [hget] at this
    obtain ⟨m, hm, htgt, hbest⟩ := modeB_step_spec a t hsrc
    have hmeq : m = l.getD t default := by
      rw [hm] at hstep
      exact Option.some.inj hstep
    subst hmeq
    exact ⟨htgt, hbest⟩

/-- **C3 witness.** The amended theorem at `aWit` (one source, one target):
Mode B succeeds and returns exactly one record. -/
theorem modeB_spec_witness :
    ∃ l, target_best_matches aWit = some l
      ∧ l.length = aWit.target_idioms.length := by
  obtain ⟨l, h1, h2, _⟩ := modeB_spec aWit (by decide)
  exact ⟨l, h1, h2⟩

/-- **C5 counterexample.** With an empty target collection, Mode B completes
normally and returns the empty list — it raises nothing, and in particular no
`EmptyCollectionError` (no such error exists anywhere in the code). -/
theorem modeB_empty_target_counterexample :
    target_best_matches aEmptyTgt = some []
    ∧ target_best_matches aEmptyTgt ≠ none := by
  have h : target_best_matches aEmptyTgt = some [] := rfl
  exact ⟨h, by rw [h]; exact Option.some_ne_none _⟩

/-- **C5 (amended).** With an empty *target* collection Mode B silently
returns an empty result set (no error signal of any kind); with an empty
*source* collection and a non-empty target collection it fails — via the
unguarded `en_idioms[-1]` `IndexError`, not via a dedicated
`EmptyCollectionError` — before fabricating any record. -/
theorem modeB_empty_collections (a : AnalysisInput) :
    (a.target_idioms = [] → target_best_matches a = some [])
    ∧ (a.en_idioms = [] → a.target_idioms ≠ [] → target_best_matches a = none) := by
  constructor
  · intro h
    unfold target_best_matches
    rw [h]
    rfl
  · exact modeB_none_of_empty_src a

/-- **C5 witness.** Both amended branches at concrete inputs. -/
theorem modeB_empty_collections_witness :
    target_best_matches aEmptyTgt = some []
    ∧ target_best_matches aEmptySrc = none :=
  ⟨(modeB_empty_collections aEmptyTgt).1 rfl,
   (modeB_empty_collections aEmptySrc).2 rfl (by decide)⟩

/-- **C10.** The best-match scan initializes its index to the sentinel `-1`
and replaces it only on a strictly greater score, so with an empty source
collection the state never changes, every per-target step fails at the
`en_idioms[-1]` lookup (none), and Mode B with any non-empty target
collection aborts without producing a single record. -/
theorem modeB_empty_source (a : AnalysisInput) (hsrc : a.en_idioms = []) :
    (∀ t, a.bestState t = ⟨-1, -1, 0, 0⟩)
    ∧ (∀ t, modeB_step a t = none)
    ∧ (a.target_idioms ≠ [] → target_best_matches a = none) := by
  refine ⟨?_, modeB_step_none_of_empty_src a hsrc, modeB_none_of_empty_src a hsrc⟩
  intro t
  unfold AnalysisInput.bestState bestFold
  rw [hsrc]
  rfl

/-- **C10 witness.** The abort at a concrete input: empty source, one target. -/
theorem modeB_empty_source_witness : target_best_matches aEmptySrc = none :=
  (modeB_empty_source aEmptySrc rfl).2.2 (by decide)

/-- **C4 (code bug).** On an empty score sequence the guarded
full-distribution section is merely skipped (`full_block [] = none` is the
`if weighted_scores:` skip, not a failure), but the best-match section has no
guard: `np.min`/`np.max` raise `ValueError` on an empty array and the bucket
loop's `count / len(best_weighted) * 100` divides by zero, so the whole
QUALITY METRICS step aborts instead of reporting zero counts. -/
theorem quality_metrics_empty_crash :
    (∀ ms : List MatchA, quality_metrics ms [] = none)
    ∧ np_min [] = none ∧ np_max [] = none
    ∧ (∀ ths : List ℚ, distribution_report [] ths = none)
    ∧ full_block [] = none :=
  ⟨fun _ => rfl, rfl, rfl, fun _ => rfl, rfl⟩

/-- **C9.** For a non-empty English idiom list, `find_similar_mwes` returns a
mapping whose every entry is keyed by an input idiom and holds a non-empty
list (idioms with no candidate at or above the threshold are omitted, never
mapped to `[]`) of at most `top_k` pairs, each scoring at or above the
threshold, in weakly descending score order. -/
theorem find_similar_mwes_spec (texts mwes : List String)
    (sim : ℕ → ℕ → ℚ) (θ : ℚ) (k : ℕ) (hne : texts ≠ []) :
    ∃ d, find_similar_mwes texts mwes sim θ k = some d
      ∧ ∀ e ∈ d, e.1 ∈ texts ∧ e.2 ≠ []
          ∧ e.2.length ≤ k
          ∧ (∀ p ∈ e.2, θ ≤ p.2)
          ∧ e.2.Pairwise fun p q => q.2 ≤ p.2 := by
  obtain ⟨t0, ts0, rfl⟩ : ∃ t0 ts0, texts = t0 :: ts0 := by
    cases texts with
    | nil => exact absurd rfl hne
    | cons a b => exact ⟨a, b, rfl⟩
  refine ⟨_, rfl, ?_⟩
  exact fold_dictInsert_inv
    (fun p => matched_mwes mwes (fun j => sim p.1 j) θ k)
    (t0 :: ts0).enum []
    (fun p hp hm =>
      ⟨enumFrom_snd_mem (t0 :: ts0) 0 p hp, by simpa using hm,
        (matched_mwes_spec mwes (fun j => sim p.1 j) θ k).1,
        (matched_mwes_spec mwes (fun j => sim p.1 j) θ k).2.1,
        (matched_mwes_spec mwes (fun j => sim p.1 j) θ k).2.2⟩)
    (fun e he => absurd he (List.not_mem_nil e))

/-- **C9 witness.** The mapping properties at a concrete input: one idiom,
two candidate MWEs, threshold 0.5, `top_k = 1`. -/
theorem find_similar_mwes_spec_witness :
    ∃ d, find_similar_mwes ["a"] ["x", "y"]
        (fun _ j => if j = 0 then 2/5 else 7/10) (1/2) 1 = some d
      ∧ ∀ e ∈ d, e.1 ∈ ["a"] ∧ e.2 ≠ [] ∧ e.2.length ≤ 1
          ∧ (∀ p ∈ e.2, 1/2 ≤ p.2) ∧ e.2.Pairwise fun p q => q.2 ≤ p.2 :=
  find_similar_mwes_spec ["a"] ["x", "y"]
    (fun _ j => if j = 0 then 2/5 else 7/10) (1/2) 1 (by decide)

end Idiom
